import Mathlib

/-!
Verification of the graph-based workflow execution engine (ellyco-agentic).

This file shallowly embeds the engine's core: JSON-like state values,
the state-merge algorithm (src/util/merge-state.ts), the class-aware deep
clone (src/util/clone-aware.ts), the runtime context and context-layer
stack with the cursor codec (src/graphs/iterator.ts, second section:
ContextLayer / RuntimeContext), the graph execution loop
(src/graphs/graph.ts: transition, step, runInternal, run, validate,
invoke in both ephemeral and store-backed modes), the NodeSequence
builder (src/graphs/node-sequence.ts) and the InterruptNode
(src/nodes/interrupt-node.ts).

Conventions of the embedding:
- JS values are the inductive Value below; class instances appear as
  Value.vClass, and the registered serializers of src/util/serializer.ts
  all round-trip exactly, so serialize-then-deserialize of a class
  instance is the identity on the modelled value.
- Thrown JS exceptions are modelled with Except JsErr.
- The asynchronous node loop is single-threaded and sequential in the
  source (awaited at each node), so it is embedded as a fuel-indexed
  total interpreter; fuel exhaustion is the distinguished error
  JsErr.other "FUEL", never produced on the concrete runs below.
- RuntimeContext.currentLayer (which starts at -1 in the source) is
  embedded as the natural number depth = currentLayer + 1.
- Graphs embedded by GraphDef have identity stateToNodeState and
  nodeStateToState, which is the behaviour of StateMachine and
  NodeSequence, the variants the claims exercise.
-/

/-- A JS runtime value, as used for graph state: null, number, string,
boolean, array, plain object (ordered own enumerable fields), or a
class instance (constructor name plus serialized fields). -/
inductive Value where
  | vNull : Value
  | vNum (n : Int) : Value
  | vStr (s : String) : Value
  | vBool (b : Bool) : Value
  | vArr (xs : List Value) : Value
  | vObj (fields : List (String × Value)) : Value
  | vClass (className : String) (fields : List (String × Value)) : Value

/-- A thrown JS exception: a TypeError, a plain Error with a message,
a zod ZodError (whose message is interpolated when the engine rewraps
it), or an arbitrary other thrown value identified by a tag. -/
inductive JsErr where
  | typeError (msg : String) : JsErr
  | error (msg : String) : JsErr
  | zodError (msg : String) : JsErr
  | other (tag : String) : JsErr
deriving DecidableEq, Repr

/-- Lookup in a JS-object-like ordered association list (first match). -/
def lookupAssoc {α : Type} : List (String × α) → String → Option α
  | [], _ => none
  | (k, v) :: rest, key => if k = key then some v else lookupAssoc rest key

/-- JS object property write: replace an existing key in place (keeping
insertion order), else append at the end. -/
def setAssoc {α : Type} : List (String × α) → String → α → List (String × α)
  | [], key, v => [(key, v)]
  | (k, w) :: rest, key, v =>
      if k = key then (key, v) :: rest else (k, w) :: setAssoc rest key v

/-- Property read value[key] of a JS value: fields for objects and class
instances, numeric index for arrays, undefined (none) for primitives. -/
def objGet : Value → String → Option Value
  | .vObj fs, key => lookupAssoc fs key
  | .vClass _ fs, key => lookupAssoc fs key
  | .vArr xs, key => (key.toNat?).bind (fun i => xs[i]?)
  | _, _ => none

/-- Property write value[key] = v. Writing a property of a primitive is
a TypeError in strict mode. -/
def objSet : Value → String → Value → Except JsErr Value
  | .vObj fs, key, v => .ok (.vObj (setAssoc fs key v))
  | .vClass n fs, key, v => .ok (.vClass n (setAssoc fs key v))
  | .vArr xs, key, v =>
      (match key.toNat? with
       | some i => .ok (.vArr (xs.set i v))
       | none => .ok (.vArr xs))
  | _, _, _ => .error (.typeError "Cannot create property on a primitive")

/-- Object.entries: own enumerable (key, value) pairs in insertion
order; index-string pairs for arrays; empty for primitives. -/
def entriesOf : Value → List (String × Value)
  | .vObj fs => fs
  | .vClass _ fs => fs
  | .vArr xs => (xs.enum).map (fun p => (toString p.1, p.2))
  | _ => []

/-- Object.keys. -/
def keysOf (v : Value) : List String := (entriesOf v).map Prod.fst

mutual
/-- cloneAware (src/util/clone-aware.ts): deep clone of a value. Class
instances go through serialize/deserialize, which for every serializer
registered in src/util/serializer.ts reconstructs an instance with the
same serialized fields. -/
def cloneAware : Value → Value
  | .vNull => .vNull
  | .vNum n => .vNum n
  | .vStr s => .vStr s
  | .vBool b => .vBool b
  | .vClass n fs => .vClass n fs
  | .vArr xs => .vArr (cloneAwareList xs)
  | .vObj fs => .vObj (cloneAwareFields fs)

/-- Element-wise clone of an array (the for-of push loop of cloneAware). -/
def cloneAwareList : List Value → List Value
  | [] => []
  | x :: xs => cloneAware x :: cloneAwareList xs

/-- Key-wise clone of a plain object (the for-in loop of cloneAware). -/
def cloneAwareFields : List (String × Value) → List (String × Value)
  | [] => []
  | (k, v) :: fs => (k, cloneAware v) :: cloneAwareFields fs
end

/-- The zod field registry STATE_MERGE (src/graphs/registry.ts) attaches
an optional custom merge function to a field schema; a Schema node
carries, per field, that optional strategy and the nested field schema.
Schema.undef stands for an absent schema fragment (reading .shape of it
throws, as in JS where the fragment is undefined or a non-object zod
type). -/
inductive Schema where
  | undef : Schema
  | mk (fields : List (String × Option (Value → Value → Value) × Schema)) : Schema

/-- Evaluate schema.shape[key]: TypeError when the schema fragment is
absent, else the field entry (custom strategy and sub-schema) if any. -/
def shapeGet : Schema → String → Except JsErr (Option ((Option (Value → Value → Value)) × Schema))
  | .undef, _ => .error (.typeError "Cannot read properties of undefined")
  | .mk fs, key =>
      (match lookupAssoc fs key with
       | some (c, s) => .ok (some (c, s))
       | none => .ok none)

/-- The custom merge strategy a schema declares for a field, if any
(none both when the field has no strategy and when the fragment is
absent). -/
def shapeCustom : Schema → String → Option (Value → Value → Value)
  | .undef, _ => none
  | .mk fs, key =>
      (match lookupAssoc fs key with
       | some (c, _) => c
       | none => none)

/-- Is the value a class instance (non-plain-object, non-array)? This is
the constructor-name probe of merge-state.ts. -/
def isClassVal : Value → Bool
  | .vClass _ _ => true
  | _ => false

/-- The entry loop of mergeState (src/util/merge-state.ts), fuel-indexed
(one unit per processed entry and per recursion). For each (key, value)
of the changes: if the accumulator has nothing (or null) at key, set it;
else if the field has a registered merge strategy, apply it; else a
class-instance value replaces, a value that is an array or plain object
replaces when the accumulated value is an array and otherwise recurses
with the nested schema fragment, and a primitive replaces. A null value
over a present base value throws (the constructor-in probe on null). -/
def mergeEntries : Nat → Schema → Value → List (String × Value) → Except JsErr Value
  | 0, _, _, _ => .error (.other "FUEL")
  | _ + 1, _, acc, [] => .ok acc
  | fuel + 1, schema, acc, (key, value) :: rest =>
      match objGet acc key with
      | none =>
          (objSet acc key value).bind (fun a => mergeEntries fuel schema a rest)
      | some .vNull =>
          (objSet acc key value).bind (fun a => mergeEntries fuel schema a rest)
      | some bv =>
          (shapeGet schema key).bind (fun fieldInfo =>
            match fieldInfo with
            | some (some strat, _) =>
                (objSet acc key (strat bv value)).bind
                  (fun a => mergeEntries fuel schema a rest)
            | _ =>
                match value with
                | .vClass cn cf =>
                    (objSet acc key (.vClass cn cf)).bind
                      (fun a => mergeEntries fuel schema a rest)
                | .vNull => .error (.typeError "Cannot use in operator on null")
                | .vObj vf =>
                    (match bv with
                     | .vArr _ =>
                         (objSet acc key (.vObj vf)).bind
                           (fun a => mergeEntries fuel schema a rest)
                     | _ =>
                         (mergeEntries fuel
                            (match fieldInfo with
                             | some (_, sub) => sub
                             | none => Schema.undef)
                            (cloneAware bv) (entriesOf (.vObj vf))).bind
                           (fun m =>
                             (objSet acc key m).bind
                               (fun a => mergeEntries fuel schema a rest)))
                | .vArr vxs =>
                    (match bv with
                     | .vArr _ =>
                         (objSet acc key (.vArr vxs)).bind
                           (fun a => mergeEntries fuel schema a rest)
                     | _ =>
                         (mergeEntries fuel
                            (match fieldInfo with
                             | some (_, sub) => sub
                             | none => Schema.undef)
                            (cloneAware bv) (entriesOf (.vArr vxs))).bind
                           (fun m =>
                             (objSet acc key m).bind
                               (fun a => mergeEntries fuel schema a rest)))
                | v =>
                    (objSet acc key v).bind
                      (fun a => mergeEntries fuel schema a rest))

/-- mergeState(base, changes, schema): deep-clone the base, then fold the
entries of the changes into it per mergeEntries. -/
def mergeStateV (fuel : Nat) (base changes : Value) (schema : Schema) : Except JsErr Value :=
  mergeEntries fuel schema (cloneAware base) (entriesOf changes)

/-- JS String.prototype.split with separator "." on a character list:
splitting the empty string yields one empty segment, and every
separator character opens a new segment. -/
def splitDotCL : List Char → List (List Char)
  | [] => [[]]
  | c :: rest =>
      if c = '.' then [] :: splitDotCL rest
      else
        match splitDotCL rest with
        | [] => [[c]]
        | t :: ts => (c :: t) :: ts

/-- JS Array.prototype.join with separator "." on character lists:
empty for the empty list, else the segments interleaved with dots. -/
def joinDotCL : List (List Char) → List Char
  | [] => []
  | [x] => x
  | x :: y :: rest => x ++ '.' :: joinDotCL (y :: rest)

/-- cursor.split(".") as a list of segment strings. -/
def splitDot (s : String) : List String := (splitDotCL s.data).map (fun cs => ⟨cs⟩)

/-- segments.join(".") as a string. -/
def joinDot (l : List String) : String := ⟨joinDotCL (l.map String.data)⟩

/-- One ContextLayer (src/graphs/iterator.ts, RuntimeContext section): the
node currently executing at this depth and the free-form scratch map.
The layer's index is its position in the runtime's stack. -/
structure Layer where
  currentNode : Option String
  custom : List (String × Value)

/-- The shared RuntimeContext: the context-layer stack, the pointer into
it (depth embeds the source's currentLayer + 1, which starts at -1), and
the interrupt/resume flags with the exit message. -/
structure RT where
  layers : List Layer
  depth : Nat
  interrupted : Bool
  exitMessage : String
  resuming : Bool

/-- A freshly constructed RuntimeContext. -/
def freshRT : RT :=
  { layers := [], depth := 0, interrupted := false, exitMessage := "", resuming := false }

/-- The currentNode of the layer at an index, as the execution loop reads
it through the non-null assertion (a missing layer or unset node reads
as the string undefined, as interpolating undefined would in JS). -/
def currentNodeD (rt : RT) (idx : Nat) : String :=
  match rt.layers[idx]? with
  | some l => l.currentNode.getD "undefined"
  | none => "undefined"

/-- Assign context.currentNode on the layer at an index. -/
def setCurrentNode (rt : RT) (idx : Nat) (n : String) : RT :=
  match rt.layers[idx]? with
  | some l => { rt with layers := rt.layers.set idx { l with currentNode := some n } }
  | none => rt

/-- RuntimeContext.nextLayer: if a layer already exists at the next
depth, advance into it; else allocate a fresh layer at the end of the
stack and advance. Returns the updated runtime and the index of the
entered layer. -/
def nextLayer (rt : RT) : RT × Nat :=
  if rt.depth < rt.layers.length then
    ({ rt with depth := rt.depth + 1 }, rt.depth)
  else
    ({ rt with layers := rt.layers ++ [{ currentNode := none, custom := [] }],
               depth := rt.depth + 1 },
     rt.layers.length)

/-- RuntimeContext.removeTopLayer: pop the last layer, retreat the pointer. -/
def removeTopLayer (rt : RT) : RT :=
  { rt with layers := rt.layers.dropLast, depth := rt.depth - 1 }

/-- ContextLayer.done: remove the top layer unless the run is interrupted. -/
def doneLayer (rt : RT) : RT :=
  if rt.interrupted then rt else removeTopLayer rt

/-- RuntimeContext.markInterrupted. -/
def markInterrupted (rt : RT) (reason : Option String) : RT :=
  { rt with interrupted := true, exitMessage := reason.getD "" }

/-- RuntimeContext.markResumed. -/
def markResumed (rt : RT) : RT :=
  { rt with resuming := false }

/-- RuntimeContext.unwrapCursor: set resuming, split the cursor on dots
and push one layer per segment, each with that segment as currentNode
and an empty scratch map. -/
def unwrapCursor (rt : RT) (cursor : String) : RT :=
  { rt with resuming := true,
            layers := rt.layers ++ (splitDot cursor).map
              (fun n => { currentNode := some n, custom := [] }) }

/-- RuntimeContext.wrapCursor: join every layer's currentNode with dots
in stack order. -/
def wrapCursor (rt : RT) : String :=
  joinDot (rt.layers.map (fun l => l.currentNode.getD ""))

/-- The JS object spread of two values, as in the loop's
state = (spread of state then step result): the own enumerable entries
of the second override those of the first, in insertion order. -/
def spreadMerge (a b : Value) : Value :=
  .vObj ((entriesOf b).foldl (fun acc p => setAssoc acc p.1 p.2) (entriesOf a))

/-- context.currentNode as the optional value it is in the source. -/
def currentNodeOpt (rt : RT) (idx : Nat) : Option String :=
  (rt.layers[idx]?).bind (fun l => l.currentNode)

/-- A node of a graph (the NodeLike contract): a FunctionNode wrapping a
function from the node state to a partial update (which may throw), an
InterruptNode with its optional configured message, or a nested graph
(a Graph used as a node) given by its node map, unconditional edges,
conditional edges (candidate targets plus decision function) and state
schema. -/
inductive NodeDef where
  | func (f : Value → Except JsErr Value) : NodeDef
  | interrupt (message : Option String) : NodeDef
  | nested (nodes : List (String × NodeDef))
           (edges : List (String × String))
           (conds : List (String × List String × (Value → String)))
           (schema : Schema) : NodeDef

/-- Graph.transition: follow the unconditional edge of the current node
if it has one; else evaluate the conditional decision function on the
state and follow the returned candidate if declared; else throw the
wiring error. -/
def transitionM (edges : List (String × String))
    (conds : List (String × List String × (Value → String)))
    (state : Value) (idx : Nat) (rt : RT) : Except JsErr RT :=
  let n := currentNodeD rt idx
  match lookupAssoc edges n with
  | some dest => .ok (setCurrentNode rt idx dest)
  | none =>
      match lookupAssoc conds n with
      | some (cands, f) =>
          let condition := f state
          if cands.contains condition then .ok (setCurrentNode rt idx condition)
          else .error (.error ("No edge found for after node " ++ n ++
                               " with condition " ++ condition))
      | none =>
          .error (.error ("No edge or conditional edge found for after node " ++ n))

mutual
/-- node.run(state, context) with the context layer at index idx: a
FunctionNode applies its function; an InterruptNode clears the resuming
flag when it is being resumed through and otherwise marks the run
interrupted with its configured message, returning an empty partial
update either way (src/nodes/interrupt-node.ts); a nested Graph runs
through Graph.run on the shared runtime. -/
def runNodeM : Nat → NodeDef → Value → Nat → RT → Except JsErr (Value × RT)
  | 0, _, _, _, _ => .error (.other "FUEL")
  | _ + 1, .func f, arg, _, rt => (f arg).map (fun r => (r, rt))
  | _ + 1, .interrupt msg, _, _, rt =>
      if rt.resuming then .ok (.vObj [], markResumed rt)
      else .ok (.vObj [], markInterrupted rt msg)
  | fuel + 1, .nested nodes edges conds schema, arg, _, rt =>
      runGM fuel nodes edges conds schema arg rt

/-- Graph.step: resolve the node by the current name (a missing node is
a fatal error), call its run on a deep clone of the node view of the
state, return the state unchanged on an empty partial update and
otherwise merge the update into the state through mergeState with the
graph's schema. -/
def stepM : Nat → List (String × NodeDef) → Schema → Value → Nat → RT →
    Except JsErr (Value × RT)
  | 0, _, _, _, _, _ => .error (.other "FUEL")
  | fuel + 1, nodes, schema, state, idx, rt =>
      let n := currentNodeD rt idx
      match lookupAssoc nodes n with
      | none => .error (.error ("Node " ++ n ++ " not found"))
      | some node =>
          (runNodeM fuel node (cloneAware state) idx rt).bind
            (fun pr =>
              if (keysOf pr.1).isEmpty then .ok (state, pr.2)
              else
                (mergeStateV fuel state pr.1 schema).bind
                  (fun merged => .ok (merged, pr.2)))

/-- Graph.runInternal: loop until the current node is END; START only
routes (transitioning on the original input); otherwise run the node
via step, spread its result over the state, stop immediately when the
shared runtime is interrupted, else transition and repeat. -/
def runInternalM : Nat → List (String × NodeDef) → List (String × String) →
    List (String × List String × (Value → String)) → Schema →
    Value → Value → Nat → RT → Except JsErr (Value × RT)
  | 0, _, _, _, _, _, _, _, _ => .error (.other "FUEL")
  | fuel + 1, nodes, edges, conds, schema, input, state, idx, rt =>
      let n := currentNodeD rt idx
      if n = "end" then .ok (state, rt)
      else if n = "start" then
        (transitionM edges conds input idx rt).bind
          (fun rt1 => runInternalM fuel nodes edges conds schema input state idx rt1)
      else
        (stepM fuel nodes schema state idx rt).bind
          (fun pr =>
            let state1 := spreadMerge state pr.1
            if pr.2.interrupted then .ok (state1, pr.2)
            else
              (transitionM edges conds state1 idx pr.2).bind
                (fun rt2 =>
                  runInternalM fuel nodes edges conds schema input state1 idx rt2))

/-- Graph.run: enter the next context layer, point it at START when it
has no current node yet, run the internal loop on a deep clone of the
input, and mark the layer done (which pops it only when the run is not
interrupted). -/
def runGM : Nat → List (String × NodeDef) → List (String × String) →
    List (String × List String × (Value → String)) → Schema →
    Value → RT → Except JsErr (Value × RT)
  | 0, _, _, _, _, _, _ => .error (.other "FUEL")
  | fuel + 1, nodes, edges, conds, schema, input, rt =>
      let p := nextLayer rt
      let rt2 := if (currentNodeOpt p.1 p.2).isNone then setCurrentNode p.1 p.2 "start"
                 else p.1
      (runInternalM fuel nodes edges conds schema input (cloneAware input) p.2 rt2).bind
        (fun pr => .ok (pr.1, doneLayer pr.2))
end

/-- A whole graph as the public entry points see it: its node map, its
edges, its conditional edges, its state schema, and the zod parse of
its schema (validating an input value into the state shape, throwing
a ZodError on mismatch). -/
structure GraphDef where
  nodes : List (String × NodeDef)
  edges : List (String × String)
  conds : List (String × List String × (Value → String))
  schema : Schema
  parse : Value → Except JsErr Value

/-- Graph.run at the top level of a GraphDef. -/
def runGraphTop (fuel : Nat) (g : GraphDef) (input : Value) (rt : RT) :
    Except JsErr (Value × RT) :=
  runGM fuel g.nodes g.edges g.conds g.schema input rt

/-- Substring containment on character lists, as JS
String.prototype.includes. -/
def hasSubCL (pat : List Char) : List Char → Bool
  | [] => pat.isEmpty
  | c :: rest => pat.isPrefixOf (c :: rest) || hasSubCL pat rest

/-- JS s.includes(pat). -/
def strIncludes (s pat : String) : Bool := hasSubCL pat.data s.data

/-- Whether START has at least one outgoing edge, unconditional or
conditional (the first check of Graph.validate). -/
def startHasEdge (g : GraphDef) : Bool :=
  (lookupAssoc g.edges "start").isSome || (lookupAssoc g.conds "start").isSome

/-- The endIsSet computation of Graph.validate: some unconditional edge
target equals END, or some conditional-edge candidate CONTAINS the
string END as a substring (the source tests candidate.includes(END)). -/
def endIsSet (g : GraphDef) : Bool :=
  (g.edges.map Prod.snd).any (fun dest => dest = "end") ||
  ((g.conds.map (fun e => e.2.1)).flatten).any (fun dest => strIncludes dest "end")

/-- Graph.validate: throw when START has no outgoing edge; then throw
when endIsSet fails; else succeed. -/
def validateG (g : GraphDef) : Except JsErr Unit :=
  if startHasEdge g = false then
    .error (.error "No edge or conditional edge found for starting node start")
  else if endIsSet g = false then
    .error (.error "No edge or conditional edge found for ending node end")
  else .ok ()

/-- The result object invoke returns (without the random runId):
final state, exit reason, and on interrupt the exit message and cursor. -/
structure GraphResult where
  state : Value
  exitReason : String
  exitMessage : Option String
  cursor : Option String

/-- The catch clause of Graph.invoke: a ZodError is re-raised as a
plain Error carrying the schema-mismatch message; every other thrown
value propagates unchanged. -/
def wrapZodErr : JsErr → JsErr
  | .zodError m => .error ("Input does not match schema: " ++ m)
  | e => e

/-- Graph.invoke in ephemeral mode (RunConfig): build a fresh
RuntimeContext, unwrap the resumeFrom cursor when one is given and
truthy (the empty string is falsy in JS and is ignored), parse the
input against the schema, run, and report either the interrupt result
(with exit message and wrapped cursor) or the end result; errors pass
the ZodError-wrapping catch. -/
def invokeEphemeral (g : GraphDef) (input : Value) (resumeFrom : Option String)
    (fuel : Nat) : Except JsErr GraphResult :=
  let rt0 := freshRT
  let rt1 := match resumeFrom with
    | some c => if c = "" then rt0 else unwrapCursor rt0 c
    | none => rt0
  match (g.parse input).bind (fun state =>
          (runGraphTop fuel g state rt1).bind (fun pr =>
            let finalState := spreadMerge state pr.1
            if pr.2.interrupted then
              .ok { state := finalState, exitReason := "interrupt",
                    exitMessage := some pr.2.exitMessage,
                    cursor := some (wrapCursor pr.2) }
            else
              .ok { state := finalState, exitReason := "end",
                    exitMessage := none, cursor := none })) with
  | .error e => .error (wrapZodErr e)
  | .ok r => .ok r

/-- Graph.invoke in persisted mode (StoredRunConfig). The store row for
the runId is modelled as an optional (cursor, state) pair, before and
after the call. When a checkpoint exists, the loaded state is merged
into the partial input through mergeState (so the loaded values win
where both define a field, per the mergeState rules) and the loaded
cursor is unwrapped; this happens before the try block, so merge errors
are not ZodError-wrapped. Then parse, run, and either persist the
cursor and final state on interrupt, or on normal end delete the row
(deleteAfterEnd) or persist the END cursor. -/
def invokeStored (g : GraphDef) (partialInput : Value)
    (stored : Option (String × Value)) (deleteAfterEnd : Bool) (fuel : Nat) :
    Except JsErr (GraphResult × Option (String × Value)) :=
  let rt0 := freshRT
  match (match stored with
         | none => Except.ok (partialInput, rt0)
         | some cs =>
             (mergeStateV fuel partialInput cs.2 g.schema).map
               (fun m => (m, unwrapCursor rt0 cs.1))) with
  | .error e => .error e
  | .ok p =>
      match (g.parse p.1).bind (fun state =>
              (runGraphTop fuel g state p.2).bind (fun pr =>
                let finalState := spreadMerge state pr.1
                if pr.2.interrupted then
                  .ok ({ state := finalState, exitReason := "interrupt",
                         exitMessage := some pr.2.exitMessage,
                         cursor := some (wrapCursor pr.2) },
                       some (wrapCursor pr.2, finalState))
                else if deleteAfterEnd then
                  .ok ({ state := finalState, exitReason := "end",
                         exitMessage := none, cursor := none }, none)
                else
                  .ok ({ state := finalState, exitReason := "end",
                         exitMessage := none, cursor := none },
                       some ("end", finalState)))) with
      | .error e => .error (wrapZodErr e)
      | .ok r => .ok r

/-- NodeSequence.next: name the node node-k for the current node count,
wire START to the first node, the previous node to this one otherwise,
and this node to END. -/
def nsNext (g : GraphDef) (node : NodeDef) : GraphDef :=
  let nodeCount := g.nodes.length
  let name := "node-" ++ toString nodeCount
  if nodeCount = 0 then
    { g with nodes := setAssoc g.nodes name node,
             edges := setAssoc (setAssoc g.edges "start" name) name "end" }
  else
    let prev := "node-" ++ toString (nodeCount - 1)
    { g with nodes := setAssoc g.nodes name node,
             edges := setAssoc (setAssoc g.edges prev name) name "end" }

/-- A NodeSequence before any next() call, over a given schema/parse. -/
def nsEmpty (schema : Schema) (parse : Value → Except JsErr Value) : GraphDef :=
  { nodes := [], edges := [], conds := [], schema := schema, parse := parse }

/-- The schema z.object with a single numeric field count and no custom
merge strategies. -/
def countSchema : Schema := .mk [("count", none, .undef)]

/-- zod parse for countSchema: accept an object with a numeric count
(stripping unknown keys, as z.object does), else throw a ZodError. -/
def countParse : Value → Except JsErr Value := fun v =>
  match objGet v "count" with
  | some (.vNum n) => .ok (.vObj [("count", .vNum n)])
  | _ => .error (.zodError "expected number at count")

/-- The state object with the given count. -/
def vCount (n : Int) : Value := .vObj [("count", .vNum n)]

/-- The function of the addOne node: map state to a partial update with
count incremented. -/
def addOneF : Value → Except JsErr Value := fun v =>
  match objGet v "count" with
  | some (.vNum n) => .ok (.vObj [("count", .vNum (n + 1))])
  | _ => .error (.typeError "count is not a number")

/-- The addOne FunctionNode of the NodeSequence tests. -/
def addOneNode : NodeDef := .func addOneF

/-- The three-node NodeSequence of the interrupt tests: addOne, then an
InterruptNode with no message, then addOne. -/
def seq3 : GraphDef :=
  nsNext (nsNext (nsNext (nsEmpty countSchema countParse) addOneNode)
            (.interrupt none)) addOneNode

/-- Claim C1: invoking the three-node NodeSequence (addOne, interrupt,
addOne) with count 0 returns exitReason interrupt, cursor node-1 and
count 1; invoking it again with the same input and resumeFrom that
cursor does not re-interrupt at node-1 (the interrupt node consumes its
own resume, contributing no state change), the subsequent node fires
(count goes from 0 to 1 through node-2 alone), and the run ends with
exitReason end. -/
theorem claim_C1 :
    invokeEphemeral seq3 (vCount 0) none 20 =
      .ok { state := vCount 1, exitReason := "interrupt",
            exitMessage := some "", cursor := some "node-1" } ∧
    invokeEphemeral seq3 (vCount 0) (some "node-1") 20 =
      .ok { state := vCount 1, exitReason := "end",
            exitMessage := none, cursor := none } :=
  ⟨rfl, rfl⟩

/-- Claim C4: InterruptNode.run clears the resuming flag (markResumed)
when the runtime is resuming, leaving the interrupted flag untouched,
and otherwise marks the runtime interrupted with its configured message
(the empty string when none was given); in both cases it returns the
empty partial update. -/
theorem claim_C4 (fuel : Nat) (msg : Option String) (arg : Value) (idx : Nat) (rt : RT) :
    runNodeM (fuel + 1) (.interrupt msg) arg idx rt =
      .ok (.vObj [], if rt.resuming then markResumed rt else markInterrupted rt msg) ∧
    (markResumed rt).resuming = false ∧
    (markResumed rt).interrupted = rt.interrupted ∧
    (markInterrupted rt msg).interrupted = true ∧
    (markInterrupted rt msg).exitMessage = msg.getD "" := by
  refine ⟨?_, rfl, rfl, rfl, rfl⟩
  cases h : rt.resuming <;> simp [runNodeM, h]

/-- Claim C10: in ephemeral mode, invoke with resumeFrom equal to the
empty string behaves exactly like a fresh run: the empty cursor is
falsy in JS, so unwrapCursor is never called and the call is identical
in every observable respect to invoking with no resumeFrom at all. -/
theorem claim_C10 (g : GraphDef) (input : Value) (fuel : Nat) :
    invokeEphemeral g input (some "") fuel = invokeEphemeral g input none fuel := rfl

theorem splitDotCL_no_dot (x : List Char) (hx : '.' ∉ x) : splitDotCL x = [x] := by
  induction x with
  | nil => rfl
  | cons c rest ih =>
      have hc : ¬(c = '.') := fun h => hx (h ▸ List.mem_cons_self _ _)
      have hr : '.' ∉ rest := fun h => hx (List.mem_cons_of_mem _ h)
      simp [splitDotCL, hc, ih hr]

theorem splitDotCL_append (x t : List Char) (hx : '.' ∉ x) :
    splitDotCL (x ++ '.' :: t) = x :: splitDotCL t := by
  induction x with
  | nil => simp [splitDotCL]
  | cons c rest ih =>
      have hc : ¬(c = '.') := fun h => hx (h ▸ List.mem_cons_self _ _)
      have hr : '.' ∉ rest := fun h => hx (List.mem_cons_of_mem _ h)
      simp [splitDotCL, hc, ih hr]

theorem splitDotCL_joinDotCL : ∀ l : List (List Char), l ≠ [] →
    (∀ s ∈ l, '.' ∉ s) → splitDotCL (joinDotCL l) = l
  | [], h, _ => absurd rfl h
  | [x], _, hd => by simp [joinDotCL, splitDotCL_no_dot x (hd x (by simp))]
  | x :: y :: rest, _, hd => by
      have hx : '.' ∉ x := hd x (by simp)
      have ih := splitDotCL_joinDotCL (y :: rest) (by simp)
        (fun s hs => hd s (List.mem_cons_of_mem _ hs))
      simp [joinDotCL, splitDotCL_append x _ hx, ih]

theorem splitDot_joinDot (N : List String) (h : N ≠ [])
    (hd : ∀ s ∈ N, '.' ∉ s.data) : splitDot (joinDot N) = N := by
  have hmk : ∀ t : String, (⟨t.data⟩ : String) = t := fun t => rfl
  unfold splitDot joinDot
  rw [show (⟨joinDotCL (N.map String.data)⟩ : String).data
        = joinDotCL (N.map String.data) from rfl]
  rw [splitDotCL_joinDotCL (N.map String.data) (by simpa using h)
        (by intro s hs
            obtain ⟨t, ht, rfl⟩ := List.mem_map.mp hs
            exact hd t ht)]
  rw [List.map_map]
  have : ((fun cs => (⟨cs⟩ : String)) ∘ String.data) = id := funext (fun t => rfl)
  rw [this, List.map_id]

/-- Claim C2, counterexample: for the empty sequence of names, the
joined cursor is the empty string, but unwrapping it creates one layer
(JS splits the empty string into one empty segment), so the
reconstructed stack does not have exactly one layer per name; only the
string-level round trip survives. -/
theorem claim_C2_counterexample :
    (unwrapCursor freshRT (joinDot [])).layers.map (fun l => l.currentNode) ≠
      ([] : List String).map some ∧
    (unwrapCursor freshRT (joinDot [])).layers.length = 1 ∧
    wrapCursor (unwrapCursor freshRT (joinDot [])) = joinDot [] := by
  refine ⟨?_, rfl, rfl⟩
  simp [unwrapCursor, freshRT, joinDot, joinDotCL, splitDot, splitDotCL]

/-- Claim C2, amended to nonempty sequences: for every nonempty list of
node names containing no dot, unwrapping the joined cursor on a fresh
RuntimeContext and wrapping again returns the same string, the
reconstructed stack has exactly one layer per name with the identical
currentNode sequence, and every reconstructed layer's scratch map is
empty (not restored). -/
theorem claim_C2_amended (N : List String) (h1 : N ≠ [])
    (h2 : ∀ s ∈ N, '.' ∉ s.data) :
    wrapCursor (unwrapCursor freshRT (joinDot N)) = joinDot N ∧
    (unwrapCursor freshRT (joinDot N)).layers.map (fun l => l.currentNode) =
      N.map some ∧
    ∀ l ∈ (unwrapCursor freshRT (joinDot N)).layers, l.custom = [] := by
  have hs : splitDot (joinDot N) = N := splitDot_joinDot N h1 h2
  refine ⟨?_, ?_, ?_⟩
  · have hcomp : ((fun l => l.currentNode.getD "") ∘
        fun n => ({ currentNode := some n, custom := [] } : Layer)) = fun n => n :=
      funext (fun n => rfl)
    simp [wrapCursor, unwrapCursor, freshRT, hs, List.map_map, hcomp]
  · simp [unwrapCursor, freshRT, hs, List.map_map, Function.comp]
  · simp [unwrapCursor, freshRT, hs]

/-- Witness for the amended claim C2 at the concrete name sequence
a, b. -/
theorem claim_C2_witness :
    wrapCursor (unwrapCursor freshRT (joinDot ["a", "b"])) = joinDot ["a", "b"] :=
  (claim_C2_amended ["a", "b"] (by simp) (by decide)).1

/-- Well-formedness exactly as claim C8 words it: START has an outgoing
edge and some unconditional-edge target or conditional-edge candidate
IS EXACTLY the string END. (Stated from the claim, for comparison with
validateG, which the source defines with a substring test on
conditional candidates.) -/
def specWellFormed (g : GraphDef) : Bool :=
  startHasEdge g &&
  ((g.edges.map Prod.snd).any (fun dest => dest = "end") ||
   ((g.conds.map (fun e => e.2.1)).flatten).any (fun dest => dest = "end"))

/-- A graph whose only conditional candidate is backend: no edge or
candidate is exactly END, yet backend contains end as a substring. -/
def backendGraph : GraphDef :=
  { nodes := [], edges := [("start", "a")],
    conds := [("a", (["backend"], fun _ => "backend"))],
    schema := countSchema, parse := countParse }

/-- Claim C8, counterexample: backendGraph is not well-formed in the
claim's exact-END sense, yet validate does not throw, because the
source checks conditional candidates with includes(END), a substring
test that the candidate backend passes. -/
theorem claim_C8_counterexample :
    validateG backendGraph = .ok () ∧ specWellFormed backendGraph = false :=
  ⟨rfl, rfl⟩

/-- Claim C8, amended: validate() throws if and only if the graph fails
the source's well-formedness check, in which a conditional-edge
candidate counts as reaching END whenever it CONTAINS the string END as
a substring (while an unconditional-edge target must equal END
exactly); the check is a pure function of the wiring, run before any
execution. -/
theorem claim_C8_amended (g : GraphDef) :
    validateG g = .ok () ↔ (startHasEdge g = true ∧ endIsSet g = true) := by
  unfold validateG
  cases h1 : startHasEdge g <;> cases h2 : endIsSet g <;> simp [h1, h2]

/-- The one-node NodeSequence holding a single addOne node. -/
def seq1 : GraphDef := nsNext (nsEmpty countSchema countParse) addOneNode

/-- Claim C5, counterexample: resuming seq1 from a checkpoint whose
cursor is end with loaded state count 1, under the partial input
count 5, starts (and here ends) with count 1: the LOADED value wins,
because invoke computes mergeState(partialInput, loadedState) and
mergeState lets the changes argument override the base. The claim
predicted the partial input's value 5 would take precedence. -/
theorem claim_C5_counterexample :
    invokeStored seq1 (vCount 5) (some ("end", vCount 1)) false 20 =
      .ok ({ state := vCount 1, exitReason := "end",
             exitMessage := none, cursor := none },
           some ("end", vCount 1)) ∧
    (Value.vNum 1 : Value) ≠ .vNum 5 :=
  ⟨rfl, by simp⟩

/-- Claim C5, amended: in persisted invoke with an existing checkpoint,
the loaded state is merged OVER the given partial input (the call is
mergeState(partialInput, loadedState)): for a field present in both
with primitive values and no custom strategy, the loaded checkpoint's
value takes precedence in the state the run starts from, and the
loaded cursor is unwrapped into the runtime context (here the cursor
end makes the run return that merged state immediately). -/
theorem claim_C5_amended (v1 v2 : Int) :
    invokeStored seq1 (vCount v1) (some ("end", vCount v2)) false 20 =
      .ok ({ state := vCount v2, exitReason := "end",
             exitMessage := none, cursor := none },
           some ("end", vCount v2)) := rfl

/-- A FunctionNode whose run throws the given error. -/
def throwNode (e : JsErr) : NodeDef := .func (fun _ => .error e)

/-- The one-node NodeSequence whose node throws the given error. -/
def gThrow (e : JsErr) : GraphDef :=
  nsNext (nsEmpty countSchema countParse) (throwNode e)

/-- Claim C6, counterexample: a node that throws a zod ZodError does
not see that error re-raised unchanged: the catch clause of invoke
rewraps any ZodError into a plain Input-does-not-match-schema Error, so
the caller receives a different error value. -/
theorem claim_C6_counterexample :
    invokeEphemeral (gThrow (.zodError "boom")) (vCount 0) none 20 =
      .error (.error "Input does not match schema: boom") ∧
    (Except.error (JsErr.error "Input does not match schema: boom") :
        Except JsErr GraphResult) ≠ .error (.zodError "boom") :=
  ⟨rfl, by simp⟩

/-- Claim C6, amended: for every node-thrown error that is not a
ZodError, invoke re-raises that same error unchanged — no retry, no
translation, no partial-state recovery — in both ephemeral and
persisted modes; a node-thrown ZodError is instead rewrapped by the
schema-mismatch catch clause. -/
theorem claim_C6_amended (e : JsErr) (h : ∀ m, e ≠ .zodError m) :
    invokeEphemeral (gThrow e) (vCount 0) none 20 = .error e ∧
    invokeStored (gThrow e) (vCount 0) none false 20 = .error e := by
  cases e with
  | typeError m => exact ⟨rfl, rfl⟩
  | error m => exact ⟨rfl, rfl⟩
  | zodError m => exact absurd rfl (h m)
  | other m => exact ⟨rfl, rfl⟩

/-- Witness for the amended claim C6 at the concrete thrown value
tagged boom. -/
theorem claim_C6_witness :
    invokeEphemeral (gThrow (.other "boom")) (vCount 0) none 20 =
      .error (.other "boom") :=
  (claim_C6_amended (.other "boom") (fun m => by simp)).1

mutual
/-- The class-aware deep clone returns a value structurally equal to
its argument (the copy is fresh but identical). -/
theorem cloneAware_eq : (v : Value) → cloneAware v = v
  | .vNull => rfl
  | .vNum _ => rfl
  | .vStr _ => rfl
  | .vBool _ => rfl
  | .vClass _ _ => rfl
  | .vArr xs => by rw [cloneAware, cloneAwareList_eq xs]
  | .vObj fs => by rw [cloneAware, cloneAwareFields_eq fs]

theorem cloneAwareList_eq : (xs : List Value) → cloneAwareList xs = xs
  | [] => rfl
  | x :: xs => by rw [cloneAwareList, cloneAware_eq x, cloneAwareList_eq xs]

theorem cloneAwareFields_eq : (fs : List (String × Value)) → cloneAwareFields fs = fs
  | [] => rfl
  | (k, v) :: fs => by rw [cloneAwareFields, cloneAware_eq v, cloneAwareFields_eq fs]
end

theorem lookupAssoc_setAssoc_self {α : Type} (fs : List (String × α)) (k : String)
    (v : α) : lookupAssoc (setAssoc fs k v) k = some v := by
  induction fs with
  | nil => simp [setAssoc, lookupAssoc]
  | cons p rest ih =>
      by_cases h : p.1 = k
      · simp [setAssoc, h, lookupAssoc]
      · simp [setAssoc, h, lookupAssoc, ih]

theorem lookupAssoc_setAssoc_ne {α : Type} (fs : List (String × α)) (k k' : String)
    (v : α) (h : k ≠ k') : lookupAssoc (setAssoc fs k v) k' = lookupAssoc fs k' := by
  induction fs with
  | nil => simp [setAssoc, lookupAssoc, h]
  | cons p rest ih =>
      by_cases hp : p.1 = k
      · simp [setAssoc, hp, lookupAssoc, h]
      · simp only [setAssoc, if_neg hp]
        by_cases hp' : p.1 = k'
        · simp [lookupAssoc, hp']
        · simp [lookupAssoc, hp', ih]

theorem exceptBind_ok {ε α β : Type} (a : α) (f : α → Except ε β) :
    (Except.ok a : Except ε α).bind f = f a := rfl

theorem exceptBind_err {ε α β : Type} (e : ε) (f : α → Except ε β) :
    (Except.error e : Except ε α).bind f = .error e := rfl

theorem objSet_obj (fs : List (String × Value)) (k : String) (v : Value) :
    objSet (.vObj fs) k v = .ok (.vObj (setAssoc fs k v)) := rfl

/-- Inversion for Except.bind succeeding. -/
theorem exceptBind_eq_ok {ε α β : Type} {x : Except ε α} {g : α → Except ε β} {b : β}
    (h : x.bind g = .ok b) : ∃ a, x = .ok a ∧ g a = .ok b := by
  cases x with
  | ok a => exact ⟨a, rfl, h⟩
  | error e => exact absurd h (by simp [exceptBind_err])

/-- Processing one entry of the changes over a plain-object accumulator
either fails or sets exactly that key to some value and continues with
the remaining entries at one less fuel. -/
theorem mergeEntries_cons_ok {fuel : Nat} {schema : Schema}
    {fs : List (String × Value)} {key : String} {v : Value}
    {rest : List (String × Value)} {m : Value}
    (h : mergeEntries fuel schema (.vObj fs) ((key, v) :: rest) = .ok m) :
    ∃ X f, fuel = f + 1 ∧
      mergeEntries f schema (.vObj (setAssoc fs key X)) rest = .ok m := by
  match fuel with
  | 0 => exact absurd h (by simp [mergeEntries])
  | f + 1 =>
    simp only [mergeEntries, objGet] at h
    split at h
    · obtain ⟨a, ha, h⟩ := exceptBind_eq_ok h
      rw [objSet_obj] at ha
      injection ha with ha
      subst ha
      exact ⟨_, f, rfl, h⟩
    · obtain ⟨a, ha, h⟩ := exceptBind_eq_ok h
      rw [objSet_obj] at ha
      injection ha with ha
      subst ha
      exact ⟨_, f, rfl, h⟩
    · obtain ⟨fi, hsg, h⟩ := exceptBind_eq_ok h
      repeat' split at h
      all_goals
        first
          | exact absurd h (by simp)
          | (obtain ⟨a, ha, h⟩ := exceptBind_eq_ok h
             first
               | (rw [objSet_obj] at ha
                  injection ha with ha
                  subst ha
                  exact ⟨_, f, rfl, h⟩)
               | (obtain ⟨a2, ha2, h⟩ := exceptBind_eq_ok h
                  rw [objSet_obj] at ha2
                  injection ha2 with ha2
                  subst ha2
                  exact ⟨_, f, rfl, h⟩))

/-- A merge whose remaining entries never mention a key leaves that
key's binding in the accumulator untouched, and the result stays a
plain object. -/
theorem mergeEntries_lookup_of_not_mem (k : String) :
    ∀ (es : List (String × Value)) (fuel : Nat) (schema : Schema)
      (fs : List (String × Value)) (m : Value),
      mergeEntries fuel schema (.vObj fs) es = .ok m →
      k ∉ es.map Prod.fst →
      ∃ gs, m = .vObj gs ∧ lookupAssoc gs k = lookupAssoc fs k := by
  intro es
  induction es with
  | nil =>
      intro fuel schema fs m h _
      match fuel with
      | 0 => exact absurd h (by simp [mergeEntries])
      | f + 1 =>
          simp only [mergeEntries] at h
          injection h with h
          exact ⟨fs, h.symm, rfl⟩
  | cons p rest ih =>
      intro fuel schema fs m h hk
      obtain ⟨key, v⟩ := p
      simp only [List.map_cons, List.mem_cons, not_or] at hk
      obtain ⟨X, f, rfl, h1⟩ := mergeEntries_cons_ok h
      obtain ⟨gs, rfl, hg⟩ := ih f schema (setAssoc fs key X) m h1 hk.2
      refine ⟨gs, rfl, hg.trans ?_⟩
      exact lookupAssoc_setAssoc_ne fs key k X (fun he => hk.1 he.symm)

/-- The step of the merge at a key whose base value is an array, with no
custom strategy and an array value in the changes: the base array is
replaced wholesale by the new array. -/
theorem mergeEntries_key_array_step {fuel : Nat} {schema : Schema}
    {fs : List (String × Value)} {k : String} {ys : List Value}
    {rest : List (String × Value)} {m : Value} {xs : List Value}
    (h : mergeEntries fuel schema (.vObj fs) ((k, .vArr ys) :: rest) = .ok m)
    (hfs : lookupAssoc fs k = some (.vArr xs))
    (hcust : shapeCustom schema k = none) :
    ∃ f, fuel = f + 1 ∧
      mergeEntries f schema (.vObj (setAssoc fs k (.vArr ys))) rest = .ok m := by
  match fuel with
  | 0 => exact absurd h (by simp [mergeEntries])
  | f + 1 =>
    simp only [mergeEntries, objGet, hfs] at h
    cases schema with
    | undef =>
        rw [show shapeGet Schema.undef k =
              .error (.typeError "Cannot read properties of undefined") from rfl,
            exceptBind_err] at h
        exact absurd h (by simp)
    | mk sfs =>
        cases hsl : lookupAssoc sfs k with
        | none =>
            simp only [shapeGet, hsl, exceptBind_ok, objSet_obj] at h
            exact ⟨f, rfl, h⟩
        | some cs =>
            obtain ⟨c, sub⟩ := cs
            have hc : c = none := by simpa [shapeCustom, hsl] using hcust
            subst hc
            simp only [shapeGet, hsl, exceptBind_ok, objSet_obj] at h
            exact ⟨f, rfl, h⟩

/-- If the changes bind a key (once) to an array, the base binds it to
an array, and the key has no custom strategy, then a successful merge
binds that key to exactly the changes array. -/
theorem mergeEntries_array_replace (k : String) :
    ∀ (cs : List (String × Value)) (fuel : Nat) (schema : Schema)
      (fs : List (String × Value)) (m : Value) (xs ys : List Value),
      lookupAssoc cs k = some (.vArr ys) →
      (cs.map Prod.fst).Nodup →
      lookupAssoc fs k = some (.vArr xs) →
      shapeCustom schema k = none →
      mergeEntries fuel schema (.vObj fs) cs = .ok m →
      ∃ gs, m = .vObj gs ∧ lookupAssoc gs k = some (.vArr ys) := by
  intro cs
  induction cs with
  | nil =>
      intro fuel schema fs m xs ys hcs
      simp [lookupAssoc] at hcs
  | cons p rest ih =>
      intro fuel schema fs m xs ys hcs hnd hfs hcust h
      obtain ⟨key, v⟩ := p
      by_cases hkey : key = k
      · subst hkey
        have hv : v = .vArr ys := by simpa [lookupAssoc] using hcs
        subst hv
        obtain ⟨f, rfl, h1⟩ := mergeEntries_key_array_step h hfs hcust
        have hkr : key ∉ rest.map Prod.fst := by
          simp only [List.map_cons, List.nodup_cons] at hnd
          exact hnd.1
        obtain ⟨gs, rfl, hg⟩ :=
          mergeEntries_lookup_of_not_mem key rest f schema _ m h1 hkr
        exact ⟨gs, rfl, hg.trans (lookupAssoc_setAssoc_self fs key (.vArr ys))⟩
      · have hcs1 : lookupAssoc rest k = some (.vArr ys) := by
          simpa [lookupAssoc, hkey] using hcs
        obtain ⟨X, f, rfl, h1⟩ := mergeEntries_cons_ok h
        have hfs1 : lookupAssoc (setAssoc fs key X) k = some (.vArr xs) := by
          rw [lookupAssoc_setAssoc_ne fs key k X hkey]
          exact hfs
        have hnd1 : (rest.map Prod.fst).Nodup := by
          simp only [List.map_cons, List.nodup_cons] at hnd
          exact hnd.2
        exact ih f schema _ m xs ys hcs1 hnd1 hfs1 hcust h1

/-- The schema with a single items field carrying no custom strategy;
its fragment for recursion is absent, as for a zod array type. -/
def itemsSchema : Schema := .mk [("items", none, .undef)]

/-- Claim C7, counterexample: with base items a plain object and changes
items an array, the merge does NOT replace with the array: the source
only takes the replace branch when the BASE value is an array
(Array.isArray(acc[key])), so here it recurses and grafts the array's
index entries onto the object. -/
theorem claim_C7_counterexample :
    mergeStateV 10 (.vObj [("items", .vObj [("a", .vNum 1)])])
        (.vObj [("items", .vArr [.vNum 4])]) itemsSchema =
      .ok (.vObj [("items", .vObj [("a", .vNum 1), ("0", .vNum 4)])]) ∧
    (Value.vObj [("a", .vNum 1), ("0", .vNum 4)]) ≠ .vArr [.vNum 4] :=
  ⟨rfl, by simp⟩

/-- Claim C7, amended: for every base, changes and schema, and every key
with no custom merge strategy where BASE[key] is an array and
changes[key] is an array (bound once in the changes), a successful
merge(base, changes, schema)[key] equals changes[key]: the whole array
is replaced, with no element-wise diffing and no concatenation; in
particular merge on items [1,2,3] under changes [4] yields items [4]. -/
theorem claim_C7_amended (fuel : Nat) (fs cs : List (String × Value))
    (schema : Schema) (k : String) (xs ys : List Value) (m : Value)
    (hbase : lookupAssoc fs k = some (.vArr xs))
    (hch : lookupAssoc cs k = some (.vArr ys))
    (hnd : (cs.map Prod.fst).Nodup)
    (hcust : shapeCustom schema k = none)
    (hok : mergeStateV fuel (.vObj fs) (.vObj cs) schema = .ok m) :
    objGet m k = some (.vArr ys) := by
  rw [mergeStateV, show cloneAware (.vObj fs) = .vObj fs from cloneAware_eq _,
      show entriesOf (.vObj cs) = cs from rfl] at hok
  obtain ⟨gs, rfl, hg⟩ :=
    mergeEntries_array_replace k cs fuel schema fs m xs ys hch hnd hbase hcust hok
  simpa [objGet] using hg

/-- Witness for the amended claim C7 at the concrete merge of items
[1,2,3] with items [4]. -/
theorem claim_C7_witness :
    objGet (.vObj [("items", .vArr [.vNum 4])]) "items" = some (.vArr [.vNum 4]) :=
  claim_C7_amended 10 [("items", .vArr [.vNum 1, .vNum 2, .vNum 3])]
    [("items", .vArr [.vNum 4])] itemsSchema "items"
    [.vNum 1, .vNum 2, .vNum 3] [.vNum 4] (.vObj [("items", .vArr [.vNum 4])])
    rfl rfl (by simp) rfl rfl

/-- Claim C9: at every step, the state object passed to a node's run is
the class-aware deep copy of the graph's node view of the state — and
that copy is structurally identical to the node view, while being the
only data the node receives — and the graph's state after the step is
fully determined by the partial update the node's run returns: it is
the unchanged live state for an empty update, and otherwise the
mergeState of the live state with exactly that returned partial; the
runtime is passed through untouched. Mutation by the node of its
argument is mutation of the fresh copy, which no longer occurs in the
step's result. -/
theorem claim_C9 (fuel : Nat) (nodes : List (String × NodeDef)) (schema : Schema)
    (state : Value) (idx : Nat) (rt : RT) (f : Value → Except JsErr Value)
    (p : Value)
    (hnode : lookupAssoc nodes (currentNodeD rt idx) = some (.func f))
    (hrun : f (cloneAware state) = .ok p) :
    (∀ v : Value, cloneAware v = v) ∧
    stepM (fuel + 2) nodes schema state idx rt =
      (if (keysOf p).isEmpty then .ok (state, rt)
       else (mergeStateV (fuel + 1) state p schema).bind
              (fun mg => .ok (mg, rt))) := by
  refine ⟨cloneAware_eq, ?_⟩
  simp only [stepM, hnode, runNodeM, hrun, Except.map, exceptBind_ok]

/-- Witness for claim C9: the addOne node of seq1 at count 0. -/
theorem claim_C9_witness :
    stepM 7 seq1.nodes countSchema (vCount 0) 0
        ⟨[⟨some "node-0", []⟩], 1, false, "", false⟩ =
      (if (keysOf (.vObj [("count", .vNum 1)])).isEmpty
       then .ok (vCount 0, ⟨[⟨some "node-0", []⟩], 1, false, "", false⟩)
       else (mergeStateV 6 (vCount 0) (.vObj [("count", .vNum 1)]) countSchema).bind
              (fun mg => .ok (mg, ⟨[⟨some "node-0", []⟩], 1, false, "", false⟩))) :=
  (claim_C9 5 seq1.nodes countSchema (vCount 0) 0
      ⟨[⟨some "node-0", []⟩], 1, false, "", false⟩ addOneF
      (.vObj [("count", .vNum 1)]) rfl rfl).2

theorem take_set_of_le {α : Type} (l : List α) (i j : Nat) (a : α) (h : j ≤ i) :
    (l.set i a).take j = l.take j := by
  apply List.ext_getElem?
  intro m
  by_cases hm : m < j
  · rw [List.getElem?_take, List.getElem?_take, if_pos hm, if_pos hm,
        List.getElem?_set_ne (by omega : i ≠ m)]
  · rw [List.getElem?_take, List.getElem?_take, if_neg hm, if_neg hm]

theorem take_dropLast_of_le {α : Type} (l : List α) (j : Nat) (h : j + 1 ≤ l.length) :
    l.dropLast.take j = l.take j := by
  rw [List.dropLast_eq_take, List.take_take]
  congr 1
  omega

theorem take_eq_of_take_succ_eq {α : Type} {l l2 : List α} {k : Nat}
    (h : l.take (k + 1) = l2.take (k + 1)) : l.take k = l2.take k := by
  have h1 := congrArg (fun t => List.take k t) h
  simp only [List.take_take] at h1
  have hm : k ⊓ (k + 1) = k := by omega
  rwa [hm] at h1

theorem getElem?_of_take_succ_eq {α : Type} {l l2 : List α} {k : Nat}
    (h : l.take (k + 1) = l2.take (k + 1)) : l[k]? = l2[k]? := by
  have h1 := congrArg (fun t => t[k]?) h
  simp only [List.getElem?_take, if_pos (by omega : k < k + 1)] at h1
  exact h1

theorem setCurrentNode_depth (rt : RT) (idx : Nat) (n : String) :
    (setCurrentNode rt idx n).depth = rt.depth := by
  cases h : rt.layers[idx]? with
  | none => simp [setCurrentNode, h]
  | some l => simp [setCurrentNode, h]

theorem setCurrentNode_length (rt : RT) (idx : Nat) (n : String) :
    (setCurrentNode rt idx n).layers.length = rt.layers.length := by
  cases h : rt.layers[idx]? with
  | none => simp [setCurrentNode, h]
  | some l => simp [setCurrentNode, h]

theorem setCurrentNode_interrupted (rt : RT) (idx : Nat) (n : String) :
    (setCurrentNode rt idx n).interrupted = rt.interrupted := by
  cases h : rt.layers[idx]? with
  | none => simp [setCurrentNode, h]
  | some l => simp [setCurrentNode, h]

theorem setCurrentNode_take (rt : RT) (idx : Nat) (n : String) (j : Nat)
    (hj : j ≤ idx) :
    (setCurrentNode rt idx n).layers.take j = rt.layers.take j := by
  cases h : rt.layers[idx]? with
  | none => simp [setCurrentNode, h]
  | some l => simp [setCurrentNode, h, take_set_of_le _ _ _ _ hj]

theorem transitionM_ok_shape {edges : List (String × String)}
    {conds : List (String × List String × (Value → String))}
    {state : Value} {idx : Nat} {rt rt' : RT}
    (h : transitionM edges conds state idx rt = .ok rt') :
    ∃ nm, rt' = setCurrentNode rt idx nm := by
  simp only [transitionM] at h
  split at h
  · injection h with h
    exact ⟨_, h.symm⟩
  · split at h
    · split at h
      · injection h with h
        exact ⟨_, h.symm⟩
      · exact absurd h (by simp)
    · exact absurd h (by simp)

theorem doneLayer_of_interrupted {rt : RT} (h : rt.interrupted = true) :
    doneLayer rt = rt := by
  simp [doneLayer, h]

/-- The frame invariants of the execution loop, by induction on fuel:
a node run at context index idx (with the runtime pointer at depth
idx+1, inside the stack) leaves the layers at indices up to idx intact,
keeps the pointer within the stack, restores the pointer when it did
not interrupt, and never clears the interrupted flag; the corresponding
statements hold for step, for the internal loop (which additionally may
rewrite layer idx through transitions), and for a nested graph run
(which operates strictly above the entry depth). -/
theorem frame_all : ∀ fuel : Nat,
    (∀ (node : NodeDef) (arg : Value) (idx : Nat) (rt : RT) (res : Value) (rt' : RT),
      runNodeM fuel node arg idx rt = .ok (res, rt') →
      rt.depth = idx + 1 → rt.depth ≤ rt.layers.length →
      rt'.layers.take (idx + 1) = rt.layers.take (idx + 1) ∧
      rt'.depth ≤ rt'.layers.length ∧
      (rt'.interrupted = false → rt'.depth = rt.depth) ∧
      (rt.interrupted = true → rt'.interrupted = true)) ∧
    (∀ (nodes : List (String × NodeDef)) (schema : Schema) (state : Value)
       (idx : Nat) (rt : RT) (res : Value) (rt' : RT),
      stepM fuel nodes schema state idx rt = .ok (res, rt') →
      rt.depth = idx + 1 → rt.depth ≤ rt.layers.length →
      rt'.layers.take (idx + 1) = rt.layers.take (idx + 1) ∧
      rt'.depth ≤ rt'.layers.length ∧
      (rt'.interrupted = false → rt'.depth = rt.depth) ∧
      (rt.interrupted = true → rt'.interrupted = true)) ∧
    (∀ (nodes : List (String × NodeDef)) (edges : List (String × String))
       (conds : List (String × List String × (Value → String))) (schema : Schema)
       (input state : Value) (idx : Nat) (rt : RT) (res : Value) (rt' : RT),
      runInternalM fuel nodes edges conds schema input state idx rt = .ok (res, rt') →
      rt.depth = idx + 1 → rt.depth ≤ rt.layers.length →
      rt'.layers.take idx = rt.layers.take idx ∧
      rt'.depth ≤ rt'.layers.length ∧
      (rt'.interrupted = false → rt'.depth = rt.depth) ∧
      (rt.interrupted = true → rt'.interrupted = true)) ∧
    (∀ (nodes : List (String × NodeDef)) (edges : List (String × String))
       (conds : List (String × List String × (Value → String))) (schema : Schema)
       (input : Value) (rt : RT) (res : Value) (rt' : RT),
      runGM fuel nodes edges conds schema input rt = .ok (res, rt') →
      rt.depth ≤ rt.layers.length →
      rt'.layers.take rt.depth = rt.layers.take rt.depth ∧
      rt'.depth ≤ rt'.layers.length ∧
      (rt'.interrupted = false → rt'.depth = rt.depth) ∧
      (rt.interrupted = true → rt'.interrupted = true)) := by
  intro fuel
  induction fuel with
  | zero =>
      refine ⟨?_, ?_, ?_, ?_⟩
      · intro node arg idx rt res rt' h
        exact absurd h (by simp [runNodeM])
      · intro nodes schema state idx rt res rt' h
        exact absurd h (by simp [stepM])
      · intro nodes edges conds schema input state idx rt res rt' h
        exact absurd h (by simp [runInternalM])
      · intro nodes edges conds schema input rt res rt' h
        exact absurd h (by simp [runGM])
  | succ f IH =>
      refine ⟨?_, ?_, ?_, ?_⟩
      · -- runNodeM at f + 1
        intro node arg idx rt res rt' h hdep hinv
        cases node with
        | func fn =>
            cases hf : fn arg with
            | error e =>
                simp only [runNodeM, hf, Except.map] at h
                exact absurd h (by simp)
            | ok r =>
                simp only [runNodeM, hf, Except.map, Except.ok.injEq,
                  Prod.mk.injEq] at h
                obtain ⟨h1, h2⟩ := h
                subst h2
                exact ⟨rfl, hinv, fun _ => rfl, fun hi => hi⟩
        | interrupt msg =>
            simp only [runNodeM] at h
            by_cases hres : rt.resuming
            · rw [if_pos hres] at h
              simp only [Except.ok.injEq, Prod.mk.injEq] at h
              obtain ⟨h1, h2⟩ := h
              subst h2
              exact ⟨rfl, hinv, fun _ => rfl, fun hi => hi⟩
            · rw [if_neg hres] at h
              simp only [Except.ok.injEq, Prod.mk.injEq] at h
              obtain ⟨h1, h2⟩ := h
              subst h2
              refine ⟨rfl, hinv, ?_, fun _ => rfl⟩
              intro hfalse
              simp [markInterrupted] at hfalse
        | nested nodes2 edges2 conds2 schema2 =>
            simp only [runNodeM] at h
            have hg := IH.2.2.2 nodes2 edges2 conds2 schema2 arg rt res rt' h hinv
            obtain ⟨t1, t2, t3, t4⟩ := hg
            refine ⟨?_, t2, ?_, t4⟩
            · rw [← hdep]
              exact t1
            · intro hi
              exact t3 hi
      · -- stepM at f + 1
        intro nodes schema state idx rt res rt' h hdep hinv
        simp only [stepM] at h
        split at h
        · exact absurd h (by simp)
        · obtain ⟨pr, hrn, hcont⟩ := exceptBind_eq_ok h
          obtain ⟨res1, rtm⟩ := pr
          have hn := IH.1 _ (cloneAware state) idx rt res1 rtm hrn hdep hinv
          split at hcont
          · simp only [Except.ok.injEq, Prod.mk.injEq] at hcont
            obtain ⟨h1, h2⟩ := hcont
            subst h2
            exact hn
          · obtain ⟨mg, hmg, hcont2⟩ := exceptBind_eq_ok hcont
            simp only [Except.ok.injEq, Prod.mk.injEq] at hcont2
            obtain ⟨h1, h2⟩ := hcont2
            subst h2
            exact hn
      · -- runInternalM at f + 1
        intro nodes edges conds schema input state idx rt res rt' h hdep hinv
        simp only [runInternalM] at h
        split at h
        · simp only [Except.ok.injEq, Prod.mk.injEq] at h
          obtain ⟨h1, h2⟩ := h
          subst h2
          exact ⟨rfl, hinv, fun _ => rfl, fun hi => hi⟩
        · split at h
          · obtain ⟨rt1, htr, hrest⟩ := exceptBind_eq_ok h
            obtain ⟨nm, rfl⟩ := transitionM_ok_shape htr
            have hrec := IH.2.2.1 nodes edges conds schema input state idx _ res rt'
              hrest (by rw [setCurrentNode_depth]; exact hdep)
              (by rw [setCurrentNode_depth, setCurrentNode_length]; exact hinv)
            obtain ⟨t1, t2, t3, t4⟩ := hrec
            refine ⟨?_, t2, ?_, ?_⟩
            · exact t1.trans (setCurrentNode_take rt idx nm idx le_rfl)
            · intro hi
              rw [t3 hi, setCurrentNode_depth]
            · intro hi
              exact t4 (by rw [setCurrentNode_interrupted]; exact hi)
          · obtain ⟨pr, hst, hcont⟩ := exceptBind_eq_ok h
            obtain ⟨s1, rtm⟩ := pr
            have hstep := IH.2.1 nodes schema state idx rt s1 rtm hst hdep hinv
            obtain ⟨p1, p2, p3, p4⟩ := hstep
            split at hcont
            · simp only [Except.ok.injEq, Prod.mk.injEq] at hcont
              obtain ⟨h1, h2⟩ := hcont
              subst h2
              exact ⟨take_eq_of_take_succ_eq p1, p2, p3, p4⟩
            · rename_i hni
              have hni2 : rtm.interrupted = false := by simpa using hni
              obtain ⟨rt2, htr, hrest⟩ := exceptBind_eq_ok hcont
              obtain ⟨nm, rfl⟩ := transitionM_ok_shape htr
              have hrec := IH.2.2.1 nodes edges conds schema input
                (spreadMerge state s1) idx _ res rt' hrest
                (by rw [setCurrentNode_depth, p3 hni2]; exact hdep)
                (by rw [setCurrentNode_depth, setCurrentNode_length]; exact p2)
              obtain ⟨t1, t2, t3, t4⟩ := hrec
              refine ⟨?_, t2, ?_, ?_⟩
              · exact (t1.trans (setCurrentNode_take rtm idx nm idx le_rfl)).trans
                  (take_eq_of_take_succ_eq p1)
              · intro hi
                rw [t3 hi, setCurrentNode_depth, p3 hni2]
              · intro hi
                exact absurd (p4 hi) (by simp [hni2])
      · -- runGM at f + 1
        intro nodes edges conds schema input rt res rt' h hinv
        by_cases hd : rt.depth < rt.layers.length
        · simp only [runGM, nextLayer, if_pos hd] at h
          by_cases hc : (currentNodeOpt { rt with depth := rt.depth + 1 } rt.depth).isNone
          · rw [if_pos hc] at h
            obtain ⟨pr, hri, hdone⟩ := exceptBind_eq_ok h
            obtain ⟨res0, rt3⟩ := pr
            simp only [Except.ok.injEq, Prod.mk.injEq] at hdone
            obtain ⟨hd1, hd2⟩ := hdone
            subst hd2
            have hrec := IH.2.2.1 nodes edges conds schema input (cloneAware input)
              rt.depth _ res0 rt3 hri
              (by rw [setCurrentNode_depth])
              (by rw [setCurrentNode_depth, setCurrentNode_length]; exact hd)
            obtain ⟨t1, t2, t3, t4⟩ := hrec
            have htk : rt3.layers.take rt.depth = rt.layers.take rt.depth :=
              t1.trans (setCurrentNode_take _ rt.depth "start" rt.depth le_rfl)
            cases hi3 : rt3.interrupted with
            | true =>
                rw [doneLayer_of_interrupted hi3]
                refine ⟨htk, t2, ?_, ?_⟩
                · intro hfalse
                  rw [hi3] at hfalse
                  exact absurd hfalse (by simp)
                · intro hrt
                  exact t4 (by rw [setCurrentNode_interrupted]; exact hrt)
            | false =>
                have hd3 : rt3.depth = rt.depth + 1 := by
                  rw [t3 hi3, setCurrentNode_depth]
                have hlen3 : rt.depth + 1 ≤ rt3.layers.length := hd3 ▸ t2
                have hdl : doneLayer rt3 = removeTopLayer rt3 := by
                  simp [doneLayer, hi3]
                rw [hdl]
                refine ⟨?_, ?_, ?_, ?_⟩
                · show rt3.layers.dropLast.take rt.depth = rt.layers.take rt.depth
                  exact (take_dropLast_of_le rt3.layers rt.depth hlen3).trans htk
                · show rt3.depth - 1 ≤ rt3.layers.dropLast.length
                  rw [List.length_dropLast]
                  omega
                · intro _
                  show rt3.depth - 1 = rt.depth
                  omega
                · intro hrt
                  have h4 := t4 (by rw [setCurrentNode_interrupted]; exact hrt)
                  rw [hi3] at h4
                  exact absurd h4 (by simp)
          · rw [if_neg hc] at h
            obtain ⟨pr, hri, hdone⟩ := exceptBind_eq_ok h
            obtain ⟨res0, rt3⟩ := pr
            simp only [Except.ok.injEq, Prod.mk.injEq] at hdone
            obtain ⟨hd1, hd2⟩ := hdone
            subst hd2
            have hrec := IH.2.2.1 nodes edges conds schema input (cloneAware input)
              rt.depth _ res0 rt3 hri rfl (by exact hd)
            obtain ⟨t1, t2, t3, t4⟩ := hrec
            have htk : rt3.layers.take rt.depth = rt.layers.take rt.depth := t1
            cases hi3 : rt3.interrupted with
            | true =>
                rw [doneLayer_of_interrupted hi3]
                refine ⟨htk, t2, ?_, ?_⟩
                · intro hfalse
                  rw [hi3] at hfalse
                  exact absurd hfalse (by simp)
                · intro hrt
                  exact t4 hrt
            | false =>
                have hd3 : rt3.depth = rt.depth + 1 := t3 hi3
                have hlen3 : rt.depth + 1 ≤ rt3.layers.length := hd3 ▸ t2
                have hdl : doneLayer rt3 = removeTopLayer rt3 := by
                  simp [doneLayer, hi3]
                rw [hdl]
                refine ⟨?_, ?_, ?_, ?_⟩
                · show rt3.layers.dropLast.take rt.depth = rt.layers.take rt.depth
                  exact (take_dropLast_of_le rt3.layers rt.depth hlen3).trans htk
                · show rt3.depth - 1 ≤ rt3.layers.dropLast.length
                  rw [List.length_dropLast]
                  omega
                · intro _
                  show rt3.depth - 1 = rt.depth
                  omega
                · intro hrt
                  have h4 := t4 hrt
                  rw [hi3] at h4
                  exact absurd h4 (by simp)
        · have heq : rt.depth = rt.layers.length := by omega
          simp only [runGM, nextLayer, if_neg hd] at h
          have hcv : currentNodeOpt
              { rt with layers := rt.layers ++ [{ currentNode := none, custom := [] }],
                        depth := rt.depth + 1 } rt.layers.length = none := by
            simp [currentNodeOpt, List.getElem?_concat_length]
          rw [hcv] at h
          simp only [Option.isNone_none, if_true] at h
          obtain ⟨pr, hri, hdone⟩ := exceptBind_eq_ok h
          obtain ⟨res0, rt3⟩ := pr
          simp only [Except.ok.injEq, Prod.mk.injEq] at hdone
          obtain ⟨hd1, hd2⟩ := hdone
          subst hd2
          have hrec := IH.2.2.1 nodes edges conds schema input (cloneAware input)
            rt.layers.length _ res0 rt3 hri
            (by rw [setCurrentNode_depth]
                show rt.depth + 1 = rt.layers.length + 1
                rw [heq])
            (by rw [setCurrentNode_depth, setCurrentNode_length]
                show rt.depth + 1 ≤
                  (rt.layers ++ [({ currentNode := none, custom := [] } : Layer)]).length
                rw [List.length_append, List.length_singleton]
                omega)
          obtain ⟨t1, t2, t3, t4⟩ := hrec
          have htk : rt3.layers.take rt.depth = rt.layers.take rt.depth := by
            rw [heq]
            refine (t1.trans (setCurrentNode_take _ rt.layers.length "start"
              rt.layers.length le_rfl)).trans ?_
            show (rt.layers ++ [({ currentNode := none, custom := [] } : Layer)]).take
                rt.layers.length = rt.layers.take rt.layers.length
            exact List.take_append_of_le_length le_rfl
          cases hi3 : rt3.interrupted with
          | true =>
              rw [doneLayer_of_interrupted hi3]
              refine ⟨htk, t2, ?_, ?_⟩
              · intro hfalse
                rw [hi3] at hfalse
                exact absurd hfalse (by simp)
              · intro hrt
                exact t4 (by rw [setCurrentNode_interrupted]; exact hrt)
          | false =>
              have hd3 : rt3.depth = rt.depth + 1 := by
                rw [t3 hi3, setCurrentNode_depth]
              have hlen3 : rt.depth + 1 ≤ rt3.layers.length := hd3 ▸ t2
              have hdl : doneLayer rt3 = removeTopLayer rt3 := by
                simp [doneLayer, hi3]
              rw [hdl]
              refine ⟨?_, ?_, ?_, ?_⟩
              · show rt3.layers.dropLast.take rt.depth = rt.layers.take rt.depth
                exact (take_dropLast_of_le rt3.layers rt.depth hlen3).trans htk
              · show rt3.depth - 1 ≤ rt3.layers.dropLast.length
                rw [List.length_dropLast]
                omega
              · intro _
                show rt3.depth - 1 = rt.depth
                omega
              · intro hrt
                have h4 := t4 (by rw [setCurrentNode_interrupted]; exact hrt)
                rw [hi3] at h4
                exact absurd h4 (by simp)

theorem currentNodeD_eq_opt (rt : RT) (idx : Nat) :
    currentNodeD rt idx = (currentNodeOpt rt idx).getD "undefined" := by
  cases h : rt.layers[idx]? with
  | none => simp [currentNodeD, currentNodeOpt, h]
  | some l => simp [currentNodeD, currentNodeOpt, h]

/-- Claim C3: whenever the node step at the current layer sets the
shared interrupted flag, the execution loop stops immediately without
performing any further transition (the loop returns exactly the
post-step runtime and the spread-merged state), the layer's currentNode
remains the name of the node that interrupted, ContextLayer.done does
not pop the layer while interrupted, and — when the interrupting layer
is the top of the stack — the cursor produced by wrapCursor ends with
the interrupting node's name. -/
theorem claim_C3 (f : Nat) (nodes : List (String × NodeDef))
    (edges : List (String × String))
    (conds : List (String × List String × (Value → String))) (schema : Schema)
    (input state : Value) (idx : Nat) (rt : RT) (s1 : Value) (rt' : RT) (n : String)
    (hn : currentNodeOpt rt idx = some n)
    (hne : n ≠ "end") (hns : n ≠ "start")
    (hdep : rt.depth = idx + 1) (hinv : rt.depth ≤ rt.layers.length)
    (hstep : stepM f nodes schema state idx rt = .ok (s1, rt'))
    (hint : rt'.interrupted = true) :
    runInternalM (f + 1) nodes edges conds schema input state idx rt =
      .ok (spreadMerge state s1, rt') ∧
    currentNodeOpt rt' idx = some n ∧
    doneLayer rt' = rt' ∧
    (rt'.layers.length = idx + 1 →
      ∃ ns, rt'.layers.map (fun l => l.currentNode.getD "") = ns ++ [n] ∧
            wrapCursor rt' = joinDot (ns ++ [n])) := by
  have hcd : currentNodeD rt idx = n := by
    rw [currentNodeD_eq_opt, hn]
    rfl
  obtain ⟨t1, t2, t3, t4⟩ :=
    (frame_all f).2.1 nodes schema state idx rt s1 rt' hstep hdep hinv
  have hidx : rt'.layers[idx]? = rt.layers[idx]? := getElem?_of_take_succ_eq t1
  have hopt2 : currentNodeOpt rt' idx = some n := by
    unfold currentNodeOpt at hn ⊢
    rw [hidx]
    exact hn
  refine ⟨?_, hopt2, doneLayer_of_interrupted hint, ?_⟩
  · simp only [runInternalM, hcd]
    rw [if_neg hne, if_neg hns, hstep, exceptBind_ok]
    simp [hint]
  · intro hlen
    obtain ⟨layer, hl, hcur⟩ : ∃ l, rt'.layers[idx]? = some l ∧ l.currentNode = some n := by
      unfold currentNodeOpt at hopt2
      cases hL : rt'.layers[idx]? with
      | none =>
          rw [hL] at hopt2
          simp at hopt2
      | some l =>
          rw [hL] at hopt2
          exact ⟨l, rfl, by simpa using hopt2⟩
    have hLlen : (rt'.layers.map (fun l => l.currentNode.getD "")).length = idx + 1 := by
      simp [hlen]
    have hLidx : (rt'.layers.map (fun l => l.currentNode.getD ""))[idx]? = some n := by
      simp [List.getElem?_map, hl, hcur]
    have hidxlt : idx < (rt'.layers.map (fun l => l.currentNode.getD "")).length := by
      omega
    have hgetn : (rt'.layers.map (fun l => l.currentNode.getD ""))[idx] = n := by
      have hg := List.getElem?_eq_getElem hidxlt
      rw [hLidx] at hg
      injection hg with hg
      exact hg.symm
    have hdrop : (rt'.layers.map (fun l => l.currentNode.getD "")).drop idx = [n] := by
      rw [List.drop_eq_getElem_cons hidxlt, hgetn,
          List.drop_eq_nil_of_le (by omega)]
    have hsplit : rt'.layers.map (fun l => l.currentNode.getD "") =
        (rt'.layers.map (fun l => l.currentNode.getD "")).take idx ++ [n] := by
      conv_lhs => rw [← List.take_append_drop idx
        (rt'.layers.map (fun l => l.currentNode.getD ""))]
      rw [hdrop]
    refine ⟨(rt'.layers.map (fun l => l.currentNode.getD "")).take idx, hsplit, ?_⟩
    show wrapCursor rt' = joinDot _
    rw [wrapCursor]
    exact congrArg joinDot hsplit

/-- Witness for claim C3 at the interrupting step of seq3: at layer 0
on node-1 (the InterruptNode) with count 1, the loop stops with the
post-step interrupted runtime and no transition. -/
theorem claim_C3_witness :
    runInternalM 11 seq3.nodes seq3.edges seq3.conds seq3.schema (vCount 0) (vCount 1) 0
        ⟨[⟨some "node-1", []⟩], 1, false, "", false⟩ =
      .ok (spreadMerge (vCount 1) (vCount 1),
           ⟨[⟨some "node-1", []⟩], 1, true, "", false⟩) :=
  (claim_C3 10 seq3.nodes seq3.edges seq3.conds seq3.schema (vCount 0) (vCount 1) 0
      ⟨[⟨some "node-1", []⟩], 1, false, "", false⟩ (vCount 1)
      ⟨[⟨some "node-1", []⟩], 1, true, "", false⟩ "node-1"
      rfl (by decide) (by decide) rfl (by decide) rfl rfl).1
